import Mathlib

/-!
Verification development for the trending-paper loader.

The Python sources are shallowly embedded: a paper record (a Python dict
with the seven string-valued fields produced by `fetch_daily_papers_from_hf`)
becomes the structure `Paper`; Python dicts keyed by strings become
association lists with insert-or-replace-in-place semantics, which matches
the insertion-order iteration of Python dicts; the per-date JSON cache
becomes an association list from file names to JSON values; the network is
an explicit parameter (the outcome of each HTTP attempt).

Python string primitives (`<` comparison, `strip`, `lower`, `int()`)
are re-implemented over character lists so that every definition reduces
in the kernel.
-/

set_option autoImplicit false

namespace TrendingPapers

/-- Python string `<`: lexicographic comparison by code point. -/
def pyStrLtChars : List Char → List Char → Bool
  | [], [] => false
  | [], _ :: _ => true
  | _ :: _, [] => false
  | c :: a, d :: b => if c < d then true else if d < c then false else pyStrLtChars a b

/-- Python `a < b` on strings. -/
def pyStrLt (a b : String) : Bool := pyStrLtChars a.data b.data

/-- Python `s.strip()` (whitespace on both ends). -/
def pyStrip (s : String) : String :=
  ⟨((s.data.dropWhile Char.isWhitespace).reverse.dropWhile Char.isWhitespace).reverse⟩

/-- Python `s.lower()` (ASCII case folding suffices for this code base). -/
def pyLower (s : String) : String := ⟨s.data.map Char.toLower⟩

/-- Tail of a Python integer literal body: digits, with single underscores
allowed between digits (`int("1_0") = 10`). -/
def pyIntTail : List Char → Bool
  | [] => true
  | '_' :: c :: r => c.isDigit && pyIntTail r
  | ['_'] => false
  | c :: r => c.isDigit && pyIntTail r

/-- A nonempty digit string with optional interior underscores, as accepted
by Python `int()` after sign and whitespace stripping. -/
def pyIntBody : List Char → Bool
  | [] => false
  | c :: r => c.isDigit && pyIntTail r

/-- Numeric value of a digit list, ignoring underscores. -/
def digitsVal (cs : List Char) : Nat :=
  (cs.filter (fun c => c != '_')).foldl (fun a c => a * 10 + (c.toNat - 48)) 0

/-- Python `int(s)` on a string: strip whitespace, optional sign, then a
digit body; `none` when `int` would raise `ValueError`. -/
def pyStrToInt (s : String) : Option Int :=
  match (pyStrip s).data with
  | '+' :: rest => if pyIntBody rest then some (digitsVal rest) else none
  | '-' :: rest => if pyIntBody rest then some (-(digitsVal rest : Int)) else none
  | cs => if pyIntBody cs then some (digitsVal cs) else none

/-- A paper record: the fixed-shape dict built in
`utils.fetch_daily_papers_from_hf` and consumed by `data_processing.py`.
All seven fields hold strings; a field that failed to extract holds `""`
(the Python code only distinguishes a missing/`None` field from `""`
through truthiness, and both are falsy, so `""` models both). -/
structure Paper where
  title : String
  summary : String
  link : String
  date : String
  id : String
  thumbnail : String
  upvotes : String
  deriving DecidableEq, Repr

/-- Model of `data_processing.get_numeric_upvotes`: `int(paper.get("upvotes", 0))`
with `ValueError`/`TypeError` mapped to `0`. -/
def get_numeric_upvotes (p : Paper) : Int :=
  (pyStrToInt p.upvotes).getD 0

/-- The dedup key `p.get("id") or p.get("title")`: Python `or` falls through
on falsy values, so an empty (or missing) `id` falls back to `title`, and a
record where both are empty yields a falsy key and is skipped. -/
def identityKey (p : Paper) : Option String :=
  if p.id ≠ "" then some p.id
  else if p.title ≠ "" then some p.title
  else none

/-- Lookup in an insertion-ordered string-keyed dict. -/
def dictFind {α : Type} : List (String × α) → String → Option α
  | [], _ => none
  | (k', v) :: rest, k => if k' = k then some v else dictFind rest k

/-- Python dict assignment `d[k] = v`: replace the value in place when the
key is present (keeping its position), otherwise append at the end. -/
def dictSet {α : Type} : List (String × α) → String → α → List (String × α)
  | [], k, v => [(k, v)]
  | (k', v') :: rest, k, v =>
      if k' = k then (k', v) :: rest else (k', v') :: dictSet rest k v

/-- One iteration of the `deduplicate_papers` loop body, updating the
`unique_papers` dict. The replacement test is the source's
`p["date"] > prev_p["date"] or current_upvotes > prev_upvotes`. -/
def dedupStep (d : List (String × Paper)) (p : Paper) : List (String × Paper) :=
  match identityKey p with
  | none => d
  | some key =>
    match dictFind d key with
    | none => dictSet d key p
    | some prev_p =>
      if pyStrLt prev_p.date p.date = true ∨ get_numeric_upvotes p > get_numeric_upvotes prev_p then
        dictSet d key p
      else d

/-- Model of `data_processing.deduplicate_papers`: fold the loop body over the input
and return `list(unique_papers.values())`. -/
def deduplicate_papers (papers : List Paper) : List Paper :=
  (papers.foldl dedupStep []).map Prod.snd

/-- Model of `data_processing.sort_papers_by_date`: Python `sorted` is a stable sort;
with `reverse=True` the key comparison is inverted but equal keys keep
their original relative order, which is exactly stable `mergeSort` with
the "not strictly after" relation. -/
def sort_papers_by_date (papers : List Paper) (reverse : Bool) : List Paper :=
  papers.mergeSort (fun a b =>
    if reverse then !(pyStrLt a.date b.date) else !(pyStrLt b.date a.date))

/-- Model of `data_processing.sort_papers_by_upvotes`: stable sort keyed by
`get_numeric_upvotes`. -/
def sort_papers_by_upvotes (papers : List Paper) (reverse : Bool) : List Paper :=
  papers.mergeSort (fun a b =>
    if reverse then decide (get_numeric_upvotes b ≤ get_numeric_upvotes a)
    else decide (get_numeric_upvotes a ≤ get_numeric_upvotes b))

/-- Python `needle in hay` on strings, over char lists. -/
def listContains (needle : List Char) : List Char → Bool
  | [] => needle.isEmpty
  | c :: t => needle.isPrefixOf (c :: t) || listContains needle t

/-- Python substring test `needle in hay`. -/
def strIn (needle hay : String) : Bool :=
  listContains needle.data hay.data

/-- The match test of the `filter_papers` loop body:
`query_lower in title or query_lower in summary` on lowercased text. -/
def paperMatches (query_lower : String) (p : Paper) : Bool :=
  strIn query_lower (pyLower p.title) || strIn query_lower (pyLower p.summary)

/-- Model of `data_processing.filter_papers`: an empty query returns the input
unchanged; otherwise the loop appends the matching records in order. -/
def filter_papers (papers : List Paper) (query : String) : List Paper :=
  if query = "" then papers
  else
    let query_lower := pyLower query
    papers.foldl (fun acc p => if paperMatches query_lower p then acc ++ [p] else acc) []

/-! ## Cache store (`utils.load_data` / `utils.save_data`)

A cache file holds one JSON document. `json.dump` followed by `json.load`
is the identity on JSON values, so the file system is modelled as a map
from file names to parsed JSON values. -/

/-- A JSON value, as produced by `json.load`. -/
inductive JValue where
  | str (s : String)
  | num (n : Int)
  | arr (xs : List JValue)
  | obj (fields : List (String × JValue))
  | bool (b : Bool)
  | null

/-- The data directory: file name to file content (parsed JSON). -/
abbrev Store := List (String × JValue)

/-- Serialization of one record by `json.dump`, field order as in the dict
literal built in `fetch_daily_papers_from_hf`. -/
def paperToJson (p : Paper) : JValue :=
  .obj [("title", .str p.title), ("summary", .str p.summary), ("link", .str p.link),
        ("date", .str p.date), ("id", .str p.id), ("thumbnail", .str p.thumbnail),
        ("upvotes", .str p.upvotes)]

/-- Reading a string field back out of a parsed JSON object. -/
def jStrField (fields : List (String × JValue)) (k : String) : Option String :=
  match dictFind fields k with
  | some (.str s) => some s
  | _ => none

/-- Decoding one record from its parsed JSON form. -/
def paperOfJson : JValue → Option Paper
  | .obj fs => do
      let title ← jStrField fs "title"
      let summary ← jStrField fs "summary"
      let link ← jStrField fs "link"
      let date ← jStrField fs "date"
      let id ← jStrField fs "id"
      let thumbnail ← jStrField fs "thumbnail"
      let upvotes ← jStrField fs "upvotes"
      pure ⟨title, summary, link, date, id, thumbnail, upvotes⟩
  | _ => none

/-- Decoding a list of parsed JSON records, failing on the first
non-record element. -/
def papersOfJsonList : List JValue → Option (List Paper)
  | [] => some []
  | x :: xs => do
      let p ← paperOfJson x
      let rest ← papersOfJsonList xs
      pure (p :: rest)

/-- Decoding a cache file: a JSON array of records. -/
def papersOfJson : JValue → Option (List Paper)
  | .arr xs => papersOfJsonList xs
  | _ => none

/-- Model of `utils.save_data`: write `<date_str>.json` under the data root,
replacing any prior content wholesale. -/
def save_data (store : Store) (date_str : String) (data : List Paper) : Store :=
  dictSet store (date_str ++ ".json") (.arr (data.map paperToJson))

/-- Model of `utils.load_data`: `json.load` of `<date_str>.json`, or `None` when the
file does not exist. -/
def load_data (store : Store) (date_str : String) : Option JValue :=
  dictFind store (date_str ++ ".json")

/-! ## Resilient fetcher (`utils.request_with_retry`)

The network is a function from the 0-indexed attempt number to what
`requests.get` does on that attempt. Scheduled `time.sleep` waits are
collected (tagged with their attempt index) instead of being performed. -/

/-- What `requests.get(url, timeout=...)` does on one attempt. -/
inductive GetResult where
  | resp (status : Nat)
  | excHTTP (status : Nat)
  | excOther
  deriving DecidableEq, Repr

/-- The observable outcome of `request_with_retry`. -/
inductive RWRResult where
  | ok (status : Nat)
  | noneExhausted
  | rateLimitError
  | raisedHTTP (status : Nat)
  | raisedOther
  deriving DecidableEq, Repr

/-- The `except requests.exceptions.RequestException` handler: `some r`
means the loop terminates with `r`, `none` means `continue`. -/
def rwrHandleExc (retries i : Nat) (isHTTP : Bool) (status : Nat) : Option RWRResult :=
  if isHTTP && decide (status = 429) then
    if i + 1 < retries then none
    else some .rateLimitError
  else some (if isHTTP then .raisedHTTP status else .raisedOther)

/-- The `for i in range(retries)` loop of `request_with_retry`. `fuel` is
the number of remaining iterations, `i` the current index, and `waits`
accumulates the scheduled backoff sleeps as `(attempt index, seconds)`. -/
def request_with_retry_aux (get : Nat → GetResult) (jitter : Nat → ℚ) (delay : ℚ)
    (retries : Nat) : Nat → Nat → List (Nat × ℚ) → RWRResult × List (Nat × ℚ)
  | 0, _, waits => (.noneExhausted, waits)
  | fuel + 1, i, waits =>
    match get i with
    | .resp status =>
      if status = 429 then
        request_with_retry_aux get jitter delay retries fuel (i + 1)
          (waits ++ [(i, delay * 2 ^ i + jitter i)])
      else if 400 ≤ status ∧ status < 600 then
        match rwrHandleExc retries i true status with
        | some r => (r, waits)
        | none => request_with_retry_aux get jitter delay retries fuel (i + 1) waits
      else (.ok status, waits)
    | .excHTTP status =>
      match rwrHandleExc retries i true status with
      | some r => (r, waits)
      | none => request_with_retry_aux get jitter delay retries fuel (i + 1) waits
    | .excOther =>
      match rwrHandleExc retries i false 0 with
      | some r => (r, waits)
      | none => request_with_retry_aux get jitter delay retries fuel (i + 1) waits

/-- Model of `utils.request_with_retry`. A 429 *response* sleeps
`delay * (2 ** i) + random.uniform(0, 1)` and retries; any other error
status raises through `raise_for_status` into the handler; falling off the
loop returns `None`. -/
def request_with_retry (get : Nat → GetResult) (jitter : Nat → ℚ)
    (retries : Nat) (delay : ℚ) : RWRResult × List (Nat × ℚ) :=
  request_with_retry_aux get jitter delay retries retries 0 []

/-! ## Detail summary resolver (`utils.get_paper_summary`) -/

/-- An exception value, carrying the text that `f"... {e}"` interpolates. -/
inductive PyExc where
  | invalidURL (msg : String)
  | rateLimit (msg : String)
  | requestExc (msg : String)
  | other (msg : String)
  deriving DecidableEq, Repr

/-- Python `str(e)` for a `PyExc`. -/
def excStr : PyExc → String
  | .invalidURL m => m
  | .rateLimit m => m
  | .requestExc m => m
  | .other m => m

/-- Split a char list at the first `':'`, when there is one. -/
def splitAtColon : List Char → Option (List Char × List Char)
  | [] => none
  | c :: rest =>
    if c = ':' then some ([], rest)
    else (splitAtColon rest).map (fun pr => (c :: pr.1, pr.2))

/-- Characters allowed after the first character of a URL scheme. -/
def isSchemeChar (c : Char) : Bool :=
  c.isAlphanum || c = '+' || c = '-' || c = '.'

/-- A valid URL scheme: a letter followed by scheme characters. -/
def validScheme : List Char → Bool
  | [] => false
  | c :: rest => c.isAlpha && rest.all isSchemeChar

/-- Model of `urllib.parse.urlparse(url)`, restricted to the `(scheme, netloc)`
components that `_validate_url` inspects: the scheme is the lowercased
text before the first `':'` when that text is a valid scheme, and the
netloc is the text between a leading `"//"` of the remainder and the next
`'/'`, `'?'` or `'#'`. -/
def pyUrlparse (url : String) : String × String :=
  let cs := url.data
  let p :=
    match splitAtColon cs with
    | some pr => if validScheme pr.1 then ((pr.1.map Char.toLower : List Char), pr.2) else ([], cs)
    | none => ([], cs)
  let netloc :=
    match p.2 with
    | '/' :: '/' :: tail =>
        tail.takeWhile (fun c => !(c == '/' || c == '?' || c == '#'))
    | _ => ([] : List Char)
  (⟨p.1⟩, ⟨netloc⟩)

/-- Model of `utils._validate_url`: an empty URL or one whose parse lacks a scheme
or netloc raises `InvalidURLError` (Python `all([scheme, netloc])` tests
string truthiness). -/
def validate_url (url : String) : Except PyExc Unit :=
  if url = "" then .error (.invalidURL "URLが空です")
  else
    let parsed := pyUrlparse url
    if parsed.1 ≠ "" ∧ parsed.2 ≠ "" then .ok ()
    else .error (.invalidURL ("無効なURL形式: " ++ url))

/-- A fetched detail page, reduced to what `get_paper_summary` reads:
the stripped texts of the `<p>` descendants of `<main>` in document
order, when a `<main>` element exists. -/
structure Doc where
  main : Option (List String)

/-- The outcome of the `request_with_retry(paper_url)` call inside
`get_paper_summary`: a parsed document, a `None` return, or an exception. -/
inductive FetchOutcome where
  | ok (d : Doc)
  | noneResp
  | raises (e : PyExc)

/-- Model of `utils.get_paper_summary`. Returns the produced string paired with the
number of network fetches performed; the `Except` layer records whether an
exception escapes to the caller (the source catches everything, so the
result is always `.ok`). -/
def get_paper_summary (fetch : FetchOutcome) (paper_url : String) :
    Except PyExc String × Nat :=
  if paper_url = "" then (.ok "URLなし", 0)
  else
    match validate_url paper_url with
    | .error e => (.ok ("無効なURL: " ++ excStr e), 0)
    | .ok () =>
      match fetch with
      | .raises e => (.ok ("要約取得エラー: " ++ excStr e), 1)
      | .noneResp => (.ok "要約取得失敗 (Retry limit)", 1)
      | .ok d =>
        match d.main with
        | some paragraphs =>
          match paragraphs.find? (fun t => decide (100 < t.length)) with
          | some t => (.ok t, 1)
          | none => (.ok "要約が見つかりませんでした。", 1)
        | none => (.ok "要約が見つかりませんでした。", 1)

/-! ## Record extractor (`utils.fetch_daily_papers_from_hf`) -/

/-- One `<article>` listing block, reduced to what the extractor reads:
the stripped text of the first `<h3>` (if any), the `href` of the first
hyperlink (if any), and the string contents of its `div` and `span`
nodes in document order (for the upvote search). -/
structure Article where
  h3 : Option String
  href : Option String
  divTexts : List String
  spanTexts : List String
  deriving DecidableEq, Repr

/-- Python `s.strip().isdigit()`. -/
def pyIsDigitStr (s : String) : Bool :=
  !s.data.isEmpty && s.data.all Char.isDigit

/-- Model of `utils._extract_upvotes`: first `div` whose string is purely numeric,
else first such `span`, else `"0"`; the found tag's text is returned
stripped. -/
def extract_upvotes (a : Article) : String :=
  match a.divTexts.find? (fun x => pyIsDigitStr (pyStrip x)) with
  | some x => pyStrip x
  | none =>
    match a.spanTexts.find? (fun x => pyIsDigitStr (pyStrip x)) with
    | some x => pyStrip x
    | none => "0"

/-- Python `href.split("/")[-1]`: the text after the last `'/'`, or the
whole string when there is none. -/
def pyLastSegment (href : String) : String :=
  ⟨(href.data.reverse.takeWhile (fun c => c ≠ '/')).reverse⟩

/-- One iteration of the extraction loop in `fetch_daily_papers_from_hf`:
`none` when the block has no `<h3>` title (the `continue` branch).
`summaryOf` stands for the nested `get_paper_summary(link)` call. -/
def extractArticle (date_str : String) (summaryOf : String → String) (a : Article) :
    Option Paper :=
  match a.h3 with
  | none => none
  | some title =>
    let link := match a.href with
      | some h => "https://huggingface.co" ++ h
      | none => ""
    let paper_id := match a.href with
      | some h => pyLastSegment h
      | none => ""
    let thumbnail :=
      "https://cdn-thumbnails.huggingface.co/social-thumbnails/papers/" ++ paper_id ++ ".png"
    some ⟨title, summaryOf link, link, date_str, paper_id, thumbnail, extract_upvotes a⟩

/-- The body of an accumulate-if-extracted loop: append the extracted
value, or skip (`continue`). -/
def appendStep {α β : Type} (g : α → Option β) (rs : List β) (a : α) : List β :=
  match g a with
  | some r => rs ++ [r]
  | none => rs

/-- The extraction loop of `fetch_daily_papers_from_hf` over the parsed
`<article>` list of a successfully fetched listings page. -/
def fetch_daily_papers (date_str : String) (summaryOf : String → String)
    (articles : List Article) : List Paper :=
  articles.foldl (appendStep (extractArticle date_str summaryOf)) []

/-! ## Upvote refresh (`app.py`, manual upvote update loop) -/

/-- One iteration of the refresh loop body on one cached record:
`pid = p.get('id'); if pid in upvotes_map: p['upvotes'] = upvotes_map[pid]`.
Returns the (possibly) updated record and whether it was updated. -/
def refreshRecord (upvotes_map : List (String × String)) (p : Paper) : Paper × Bool :=
  match dictFind upvotes_map p.id with
  | some v => ({ p with upvotes := v }, true)
  | none => (p, false)

/-- The per-date body of the manual upvote update loop in `app.py`: load
the cached records, overwrite `upvotes` on every record whose `id` is a
key of the fetched map, and save the file back when anything changed.
`if daily_data:` is Python truthiness, so a missing file, an undecodable
file and an empty record list all leave the store untouched. -/
def upvoteRefreshDate (store : Store) (date_str : String)
    (upvotes_map : List (String × String)) : Store :=
  match (load_data store date_str).bind papersOfJson with
  | none => store
  | some records =>
    if records = [] then store
    else
      if records.any (fun p => (refreshRecord upvotes_map p).2) then
        save_data store date_str (records.map (fun p => (refreshRecord upvotes_map p).1))
      else store

/-! ## Concrete instances used by counterexamples and witnesses -/

/-- The dedup key as a total function, for records that have one. -/
def keyOf (p : Paper) : String := (identityKey p).getD ""

/-- Invariant of the `unique_papers` dict built by `deduplicate_papers`:
every stored record's dedup key is its dict key, and keys are distinct. -/
def DictWF (d : List (String × Paper)) : Prop :=
  (∀ e ∈ d, identityKey e.2 = some e.1) ∧ (d.map Prod.fst).Nodup

/-- Record with id "X": the later date but the lower upvote count. -/
def exLaterLow : Paper := ⟨"T1", "", "", "2025-01-02", "X", "", "1"⟩

/-- Record with id "X": the earlier date but the higher upvote count. -/
def exEarlierHigh : Paper := ⟨"T2", "", "", "2025-01-01", "X", "", "5"⟩

/-- Three records: `exA`/`exC` share id "X" (`exC` later), `exB` is id "Y". -/
def exA : Paper := ⟨"A", "", "", "2025-01-01", "X", "", "1"⟩

/-- See `exA`. -/
def exB : Paper := ⟨"B", "", "", "2025-01-01", "Y", "", "1"⟩

/-- See `exA`. -/
def exC : Paper := ⟨"C", "", "", "2025-01-02", "X", "", "1"⟩

/-- A cached record whose `id` is empty, so its dedup identity key is its
title "T". -/
def exTitleOnly : Paper := ⟨"T", "s", "l", "2025-01-01", "", "th", "3"⟩

/-- A fetched upvote map whose key "T" matches `exTitleOnly`'s identity
key (its title) but not its (empty) `id`. -/
def exUpvoteMap : List (String × String) := [("T", "7")]

/-- A store caching `exTitleOnly` under 2025-01-01. -/
def exStore : Store := save_data [] "2025-01-01" [exTitleOnly]

/-- A cached record with a non-empty `id`, for the refresh witness. -/
def exIdRec : Paper := ⟨"U", "s", "l", "2025-01-02", "X", "th", "3"⟩

/-- A fetched upvote map keyed by `exIdRec`'s id. -/
def exUpvoteMapX : List (String × String) := [("X", "9")]

/-- A stand-in for the per-record summary resolution. -/
def exSummaryOf : String → String := fun _ => "example abstract"

/-- Listing with a title, a link and a numeric div text. -/
def exArticleA : Article := ⟨some "Paper A", some "/papers/2406.00001", ["12"], []⟩

/-- Listing without a heading-level title. -/
def exArticleNoTitle : Article := ⟨none, some "/papers/2406.00002", ["3"], []⟩

/-- Listing with a title but no hyperlink; upvotes come from a span. -/
def exArticleC : Article := ⟨some "Paper C", none, [], ["abc", " 7 "]⟩

/-- The record extracted from `exArticleA`. -/
def exRecordA : Paper :=
  ⟨"Paper A", "example abstract", "https://huggingface.co/papers/2406.00001", "2025-06-01",
   "2406.00001", "https://cdn-thumbnails.huggingface.co/social-thumbnails/papers/2406.00001.png",
   "12"⟩

/-- The record extracted from `exArticleC`. -/
def exRecordC : Paper :=
  ⟨"Paper C", "example abstract", "", "2025-06-01", "",
   "https://cdn-thumbnails.huggingface.co/social-thumbnails/papers/.png", "7"⟩

/-! ## Association list lemmas -/

theorem dictFind_eq_none_iff {α : Type} :
    ∀ (d : List (String × α)) (k : String), dictFind d k = none ↔ k ∉ d.map Prod.fst
  | [], k => by simp [dictFind]
  | (k', v) :: rest, k => by
      by_cases h : k' = k <;>
        simp [dictFind, h, dictFind_eq_none_iff rest k, eq_comm]

theorem dictSet_of_not_mem {α : Type} :
    ∀ (d : List (String × α)) (k : String) (v : α), k ∉ d.map Prod.fst →
      dictSet d k v = d ++ [(k, v)]
  | [], k, v, _ => rfl
  | (k', v') :: rest, k, v, h => by
      simp only [List.map_cons, List.mem_cons] at h
      push_neg at h
      simp [dictSet, Ne.symm h.1, dictSet_of_not_mem rest k v h.2]

theorem map_fst_dictSet_of_mem {α : Type} :
    ∀ (d : List (String × α)) (k : String) (v : α), k ∈ d.map Prod.fst →
      (dictSet d k v).map Prod.fst = d.map Prod.fst
  | [], k, v, h => by simp at h
  | (k', v') :: rest, k, v, h => by
      by_cases hk : k' = k
      · simp [dictSet, hk]
      · simp only [List.map_cons, List.mem_cons] at h
        rcases h with h | h
        · exact absurd h.symm hk
        · simp [dictSet, hk, map_fst_dictSet_of_mem rest k v h]

theorem mem_dictSet {α : Type} :
    ∀ (d : List (String × α)) (k : String) (v : α) (e : String × α),
      e ∈ dictSet d k v → e ∈ d ∨ e = (k, v)
  | [], k, v, e, h => by
      simp only [dictSet, List.mem_singleton] at h
      exact Or.inr h
  | (k', v') :: rest, k, v, e, h => by
      by_cases hk : k' = k
      · subst hk
        simp only [dictSet, if_pos, List.mem_cons] at h
        rcases h with h1 | h1
        · exact Or.inr h1
        · exact Or.inl (List.mem_cons_of_mem _ h1)
      · simp only [dictSet, if_neg hk, List.mem_cons] at h
        rcases h with h1 | h1
        · exact Or.inl (by simp [h1])
        · rcases mem_dictSet rest k v e h1 with h2 | h2
          · exact Or.inl (List.mem_cons_of_mem _ h2)
          · exact Or.inr h2

theorem dictFind_dictSet_self {α : Type} :
    ∀ (d : List (String × α)) (k : String) (v : α), dictFind (dictSet d k v) k = some v
  | [], k, v => by simp [dictSet, dictFind]
  | (k', v') :: rest, k, v => by
      by_cases hk : k' = k <;>
        simp [dictSet, dictFind, hk, dictFind_dictSet_self rest k v]

/-! ## Loop-shape lemmas -/

theorem foldl_ite_append_eq_filter {α : Type} (f : α → Bool) :
    ∀ (l acc : List α),
      l.foldl (fun acc p => if f p then acc ++ [p] else acc) acc = acc ++ l.filter f
  | [], acc => by simp
  | p :: l, acc => by
      cases h : f p <;>
        simp [h, foldl_ite_append_eq_filter f l]

theorem foldl_appendStep_eq_filterMap {α β : Type} (g : α → Option β) :
    ∀ (l : List α) (acc : List β),
      l.foldl (appendStep g) acc = acc ++ l.filterMap g
  | [], acc => by simp
  | a :: l, acc => by
      cases h : g a <;>
        simp [appendStep, h, foldl_appendStep_eq_filterMap g l]

/-! ## JSON round trip -/

theorem paperOfJson_paperToJson (p : Paper) : paperOfJson (paperToJson p) = some p := rfl

theorem papersOfJson_roundtrip : ∀ (data : List Paper),
    papersOfJson (.arr (data.map paperToJson)) = some data
  | [] => rfl
  | p :: rest => by
      have ih := papersOfJson_roundtrip rest
      simp only [papersOfJson] at ih ⊢
      simp [papersOfJsonList, paperOfJson_paperToJson, ih]

/-! ## Claims -/

/-- C1: the claim reads dedup as "strictly later date wins; upvotes only
break date ties".  The source tests
`p["date"] > prev_p["date"] or current_upvotes > prev_upvotes`, so on two
records with the same key and *different* dates, the later-seen record
with the *earlier* date still replaces the incumbent when its upvotes are
higher: the kept record is not the one with the strictly later date. -/
theorem C1_dedup_keep_rule_counterexample :
    deduplicate_papers [exLaterLow, exEarlierHigh] = [exEarlierHigh]
    ∧ pyStrLt exEarlierHigh.date exLaterLow.date = true
    ∧ exEarlierHigh.date ≠ exLaterLow.date := by decide

/-- C1 (amended): when the same identity key is seen again, the newcomer
replaces the kept record iff it has a strictly later date OR strictly
higher numeric upvotes (an or-short-circuit, not a date-then-upvotes
tiebreak); otherwise the incumbent is kept. -/
theorem C1_dedup_pair_keep_rule_amended (p q : Paper) (k : String)
    (hp : identityKey p = some k) (hq : identityKey q = some k) :
    deduplicate_papers [p, q] =
      [if pyStrLt p.date q.date = true ∨ get_numeric_upvotes q > get_numeric_upvotes p
       then q else p] := by
  have h1 : dedupStep [] p = [(k, p)] := by
    simp [dedupStep, hp, dictFind, dictSet]
  show (dedupStep (dedupStep [] p) q).map Prod.snd = _
  rw [h1]
  by_cases hcond : pyStrLt p.date q.date = true ∨ get_numeric_upvotes q > get_numeric_upvotes p <;>
    simp [dedupStep, hq, dictFind, dictSet, hcond]

/-- C1 witness: the amended pair rule applied to the concrete pair of the
counterexample. -/
theorem C1_dedup_pair_keep_rule_witness :
    deduplicate_papers [exLaterLow, exEarlierHigh] = [exEarlierHigh] :=
  (C1_dedup_pair_keep_rule_amended exLaterLow exEarlierHigh "X" (by decide) (by decide)).trans
    (by decide)

/-- Loading a date right after saving it decodes to the saved records. -/
theorem load_after_save (store : Store) (date_str : String) (data : List Paper) :
    (load_data (save_data store date_str data) date_str).bind papersOfJson = some data := by
  simp [load_data, save_data, dictFind_dictSet_self, papersOfJson_roundtrip]

/-- C5: `save_data` for a date followed by `load_data` for that date
yields records identical in content, count and order to the saved input. -/
theorem C5_save_load_roundtrip (store : Store) (date_str : String) (data : List Paper) :
    (load_data (save_data store date_str data) date_str).bind papersOfJson = some data :=
  load_after_save store date_str data

/-- The filtering loop is `List.filter` of the match test; an empty query
short-circuits to the input. -/
theorem filter_papers_eq (papers : List Paper) (query : String) :
    filter_papers papers query =
      if query = "" then papers
      else papers.filter (paperMatches (pyLower query)) := by
  by_cases h : query = "" <;>
    simp [filter_papers, h, foldl_ite_append_eq_filter]

/-- C7: `filter_papers` with an empty query returns the input unchanged,
and otherwise returns exactly the records, in input order, whose
lowercased title or summary contains the lowercased query as a
substring. -/
theorem C7_filter_characterization (papers : List Paper) (query : String) :
    filter_papers papers query =
      if query = "" then papers
      else papers.filter (paperMatches (pyLower query)) :=
  filter_papers_eq papers query

/-- C8: extraction yields exactly one record per listing that has a
heading-level title, in document order (it is `filterMap` of the
per-listing extractor, which succeeds exactly on titled listings), and
ingesting three listings of which two are titled caches exactly those two
records. -/
theorem C8_extraction_one_record_per_titled_listing :
    (∀ (d : String) (s : String → String) (articles : List Article),
        fetch_daily_papers d s articles = articles.filterMap (extractArticle d s))
    ∧ (∀ (d : String) (s : String → String) (a : Article),
        (extractArticle d s a).isSome = a.h3.isSome)
    ∧ fetch_daily_papers "2025-06-01" exSummaryOf [exArticleA, exArticleNoTitle, exArticleC]
        = [exRecordA, exRecordC]
    ∧ (load_data (save_data [] "2025-06-01"
          (fetch_daily_papers "2025-06-01" exSummaryOf
            [exArticleA, exArticleNoTitle, exArticleC])) "2025-06-01").bind papersOfJson
        = some [exRecordA, exRecordC] := by
  refine ⟨fun d s articles => ?_, ?_, ?_, ?_⟩
  · simpa [fetch_daily_papers] using
      foldl_appendStep_eq_filterMap (extractArticle d s) articles []
  · intro d s a
    cases h : a.h3 <;> simp [extractArticle, h]
  · decide
  · have h : fetch_daily_papers "2025-06-01" exSummaryOf
        [exArticleA, exArticleNoTitle, exArticleC] = [exRecordA, exRecordC] := by decide
    rw [h]
    exact load_after_save [] "2025-06-01" [exRecordA, exRecordC]

/-- C2: the spec says exhausting all retries on persistent 429s raises the
dedicated `RateLimitError`, and the source's own docstring documents that
error.  But a 429 *response* is consumed by the `continue` branch before
`raise_for_status` can turn it into an `HTTPError`, so the
`raise RateLimitError` handler is unreachable on this path and the loop
falls through to `return None`: with the default three retries all
returning status 429, the call returns the normal `None` result, not the
rate-limit error kind. -/
theorem C2_retry_exhaustion_returns_none :
    (request_with_retry (fun _ => .resp 429) (fun _ => 0) 3 180).1 = RWRResult.noneExhausted
    ∧ RWRResult.noneExhausted ≠ RWRResult.rateLimitError :=
  ⟨rfl, by decide⟩

/-- Every wait recorded by the retry loop comes from a 429 response on its
attempt index and equals `delay * 2 ^ i + jitter i`. -/
theorem rwr_waits_spec (get : Nat → GetResult) (jitter : Nat → ℚ) (delay : ℚ) (retries : Nat) :
    ∀ (fuel i : Nat) (waits : List (Nat × ℚ)) (e : Nat × ℚ),
      e ∈ (request_with_retry_aux get jitter delay retries fuel i waits).2 →
      e ∈ waits ∨ (get e.1 = .resp 429 ∧ e.2 = delay * 2 ^ e.1 + jitter e.1)
  | 0, i, waits, e, h => Or.inl h
  | fuel + 1, i, waits, e, h => by
      cases hg : get i with
      | resp status =>
        rw [request_with_retry_aux, hg] at h
        dsimp only at h
        by_cases h429 : status = 429
        · rw [if_pos h429] at h
          rcases rwr_waits_spec get jitter delay retries fuel (i + 1) _ e h with h1 | h1
          · rcases List.mem_append.mp h1 with h2 | h2
            · exact Or.inl h2
            · have he : e = (i, delay * 2 ^ i + jitter i) := List.mem_singleton.mp h2
              refine Or.inr ?_
              rw [he]
              exact ⟨by rw [hg, h429], rfl⟩
          · exact Or.inr h1
        · rw [if_neg h429] at h
          by_cases h4xx : 400 ≤ status ∧ status < 600
          · rw [if_pos h4xx] at h
            cases hh : rwrHandleExc retries i true status with
            | some r => rw [hh] at h; exact Or.inl h
            | none =>
                rw [hh] at h
                exact rwr_waits_spec get jitter delay retries fuel (i + 1) waits e h
          · rw [if_neg h4xx] at h
            exact Or.inl h
      | excHTTP status =>
        rw [request_with_retry_aux, hg] at h
        dsimp only at h
        cases hh : rwrHandleExc retries i true status with
        | some r => rw [hh] at h; exact Or.inl h
        | none =>
            rw [hh] at h
            exact rwr_waits_spec get jitter delay retries fuel (i + 1) waits e h
      | excOther =>
        rw [request_with_retry_aux, hg] at h
        dsimp only at h
        cases hh : rwrHandleExc retries i false 0 with
        | some r => rw [hh] at h; exact Or.inl h
        | none =>
            rw [hh] at h
            exact rwr_waits_spec get jitter delay retries fuel (i + 1) waits e h

/-- C6: every wait scheduled after a 429 response on 0-indexed attempt `i`
equals `delay * 2 ^ i` plus the sampled jitter, so under the
`random.uniform(0, 1)` range it lies in `[delay * 2 ^ i, delay * 2 ^ i + 1)`
seconds. -/
theorem C6_backoff_wait_interval (get : Nat → GetResult) (jitter : Nat → ℚ)
    (retries : Nat) (delay : ℚ) (i : Nat) (w : ℚ)
    (hj : ∀ j, 0 ≤ jitter j ∧ jitter j < 1)
    (hw : (i, w) ∈ (request_with_retry get jitter retries delay).2) :
    get i = .resp 429 ∧ w = delay * 2 ^ i + jitter i
    ∧ delay * 2 ^ i ≤ w ∧ w < delay * 2 ^ i + 1 := by
  rcases rwr_waits_spec get jitter delay retries retries 0 [] (i, w) hw with h | h
  · exact absurd h (List.not_mem_nil _)
  · dsimp only at h
    refine ⟨h.1, h.2, ?_, ?_⟩
    · rw [h.2]
      linarith [(hj i).1]
    · rw [h.2]
      linarith [(hj i).2]

/-- C6 witness: on a run where the single attempt gets a 429 with jitter
1/2 and base delay 180, the scheduled wait is within the claimed interval. -/
theorem C6_backoff_wait_witness :
    (180 : ℚ) * 2 ^ 0 ≤ 180 * 2 ^ 0 + (1 / 2 : ℚ)
    ∧ (180 : ℚ) * 2 ^ 0 + (1 / 2 : ℚ) < 180 * 2 ^ 0 + 1 := by
  have h := C6_backoff_wait_interval (fun _ => .resp 429) (fun _ => (1 / 2 : ℚ)) 1 180 0
      (180 * 2 ^ 0 + (1 / 2 : ℚ)) (fun j => by norm_num)
      (by rw [request_with_retry, request_with_retry_aux, request_with_retry_aux]; simp)
  exact ⟨h.2.2.1, h.2.2.2⟩

/-- The summary resolver always hands back a string, never an exception. -/
theorem get_paper_summary_ok (fetch : FetchOutcome) (url : String) :
    ∃ s, (get_paper_summary fetch url).1 = Except.ok s := by
  unfold get_paper_summary
  repeat' split
  all_goals exact ⟨_, rfl⟩

/-- An empty or invalid URL short-circuits before any network request. -/
theorem get_paper_summary_no_fetch (fetch : FetchOutcome) (url : String)
    (h : url = "" ∨ ∃ e, validate_url url = .error e) :
    (get_paper_summary fetch url).2 = 0 := by
  by_cases hu : url = ""
  · simp [get_paper_summary, hu]
  · rcases h with h | ⟨e, he⟩
    · exact absurd h hu
    · simp [get_paper_summary, hu, he]

/-- A fetch-layer exception is absorbed into an error-describing string. -/
theorem get_paper_summary_fetch_error (url : String) (e : PyExc)
    (hv : validate_url url = .ok ()) :
    (get_paper_summary (.raises e) url).1 = .ok ("要約取得エラー: " ++ excStr e) := by
  have hu : url ≠ "" := by
    intro h0
    rw [h0] at hv
    simp [validate_url] at hv
  simp [get_paper_summary, hu, hv]

/-- C3: `get_paper_summary` always returns a string to its caller (never an
exception); an empty or malformed URL short-circuits to a placeholder with
no network request; and a fetch-layer exception yields an error-describing
placeholder string instead of propagating. -/
theorem C3_summary_total_and_short_circuit (fetch : FetchOutcome) (paper_url : String) :
    (∃ s, (get_paper_summary fetch paper_url).1 = Except.ok s)
    ∧ ((paper_url = "" ∨ ∃ e, validate_url paper_url = .error e) →
        (get_paper_summary fetch paper_url).2 = 0)
    ∧ (∀ e, validate_url paper_url = .ok () →
        (get_paper_summary (.raises e) paper_url).1
          = .ok ("要約取得エラー: " ++ excStr e)) :=
  ⟨get_paper_summary_ok fetch paper_url,
   get_paper_summary_no_fetch fetch paper_url,
   fun e hv => get_paper_summary_fetch_error paper_url e hv⟩

/-- C3 witness: a valid detail URL whose fetch raises produces the error
placeholder, and a malformed URL is rejected with no network request. -/
theorem C3_summary_witness :
    (get_paper_summary (.raises (.requestExc "boom")) "https://huggingface.co/papers/1").1
      = .ok ("要約取得エラー: " ++ excStr (.requestExc "boom"))
    ∧ (get_paper_summary (.raises (.requestExc "boom")) "not a url").2 = 0 :=
  ⟨(C3_summary_total_and_short_circuit (.raises (.requestExc "boom"))
      "https://huggingface.co/papers/1").2.2 (.requestExc "boom") rfl,
   (C3_summary_total_and_short_circuit (.raises (.requestExc "boom")) "not a url").2.1
      (Or.inr ⟨.invalidURL ("無効なURL形式: " ++ "not a url"), rfl⟩)⟩

/-- C9: the claim keys the refresh on the dedup identity key (`id` falling
back to `title`), but the refresh loop in `app.py` tests only
`p.get('id') in upvotes_map`.  A cached record with an empty `id` whose
*title* is a key of the fetched mapping is therefore left untouched: the
persisted record still carries its old upvote count, not the mapped
value. -/
theorem C9_refresh_title_key_counterexample :
    identityKey exTitleOnly = some "T"
    ∧ dictFind exUpvoteMap "T" = some "7"
    ∧ (load_data exStore "2025-01-01").bind papersOfJson = some [exTitleOnly]
    ∧ (load_data (upvoteRefreshDate exStore "2025-01-01" exUpvoteMap) "2025-01-01").bind
        papersOfJson = some [exTitleOnly]
    ∧ exTitleOnly.upvotes = "3"
    ∧ ("3" : String) ≠ "7" := by
  refine ⟨by decide, rfl, rfl, ?_, rfl, by decide⟩
  rfl

/-- C9 (amended): the refresh loop overwrites exactly the `upvotes` field
of the cached records whose `id` field is a key of the fetched mapping
(no title fallback), leaves every other record and every other field
unchanged, and persists exactly that record list. -/
theorem C9_refresh_frame_amended (store : Store) (date_str : String)
    (m : List (String × String)) (records : List Paper)
    (h : (load_data store date_str).bind papersOfJson = some records) :
    (load_data (upvoteRefreshDate store date_str m) date_str).bind papersOfJson
        = some (records.map (fun p => (refreshRecord m p).1))
    ∧ (∀ p v, dictFind m p.id = some v →
        (refreshRecord m p).1 = { p with upvotes := v })
    ∧ (∀ p, dictFind m p.id = none → (refreshRecord m p).1 = p) := by
  refine ⟨?_, fun p v hv => by simp [refreshRecord, hv], fun p hv => by simp [refreshRecord, hv]⟩
  unfold upvoteRefreshDate
  rw [h]
  dsimp only
  by_cases hnil : records = []
  · rw [if_pos hnil, h, hnil]
    simp
  · rw [if_neg hnil]
    by_cases hupd : records.any (fun p => (refreshRecord m p).2) = true
    · rw [if_pos hupd]
      exact load_after_save store date_str _
    · rw [if_neg hupd]
      have hall : ∀ p ∈ records, (refreshRecord m p).1 = p := by
        intro p hp
        cases hm : dictFind m p.id with
        | none => simp [refreshRecord, hm]
        | some v =>
            exact absurd (List.any_eq_true.mpr ⟨p, hp, by simp [refreshRecord, hm]⟩) hupd
      have hmap : records.map (fun p => (refreshRecord m p).1) = records := by
        conv_rhs => rw [show records = records.map id from (List.map_id records).symm]
        exact List.map_congr_left (fun p hp => by rw [hall p hp]; rfl)
      rw [h, hmap]

/-- C9 witness: the amended refresh rule applied to a concrete store with
one cached record whose id is in the fetched map: the persisted record has
the mapped upvotes and all other fields unchanged. -/
theorem C9_refresh_frame_witness :
    (load_data (upvoteRefreshDate (save_data [] "2025-01-02" [exIdRec]) "2025-01-02"
        exUpvoteMapX) "2025-01-02").bind papersOfJson
      = some [⟨"U", "s", "l", "2025-01-02", "X", "th", "9"⟩] :=
  ((C9_refresh_frame_amended (save_data [] "2025-01-02" [exIdRec]) "2025-01-02"
      exUpvoteMapX [exIdRec] (by rfl)).1).trans (by rfl)

/-! ## Structure of the dedup fold -/

/-- `dedupStep` preserves the dict invariant `DictWF`. -/
theorem dictWF_dedupStep (d : List (String × Paper)) (p : Paper) (hwf : DictWF d) :
    DictWF (dedupStep d p) := by
  obtain ⟨h1, h2⟩ := hwf
  unfold dedupStep
  cases hk : identityKey p with
  | none => exact ⟨h1, h2⟩
  | some key =>
    dsimp only
    cases hf : dictFind d key with
    | none =>
      dsimp only
      have hmem : key ∉ d.map Prod.fst := (dictFind_eq_none_iff d key).mp hf
      rw [dictSet_of_not_mem d key p hmem]
      constructor
      · intro e he
        rcases List.mem_append.mp he with he1 | he1
        · exact h1 e he1
        · rw [List.mem_singleton.mp he1]
          exact hk
      · rw [List.map_append]
        simp [List.nodup_append, h2, hmem]
    | some prev =>
      dsimp only
      split
      · have hmem : key ∈ d.map Prod.fst := by
          by_contra hn
          rw [(dictFind_eq_none_iff d key).mpr hn] at hf
          cases hf
        constructor
        · intro e he
          rcases mem_dictSet d key p e he with he1 | he1
          · exact h1 e he1
          · rw [he1]
            exact hk
        · rw [map_fst_dictSet_of_mem d key p hmem]
          exact h2
      · exact ⟨h1, h2⟩

/-- The dict invariant holds along the whole fold. -/
theorem dictWF_foldl : ∀ (l : List Paper) (d : List (String × Paper)),
    DictWF d → DictWF (l.foldl dedupStep d)
  | [], _, h => h
  | p :: l, d, h => dictWF_foldl l (dedupStep d p) (dictWF_dedupStep d p h)

/-- Folding `dedupStep` over records with defined, pairwise-distinct keys,
all fresh for the accumulator, just appends the keyed records in order. -/
theorem foldl_dedupStep_fresh :
    ∀ (l : List Paper) (d : List (String × Paper)),
      (∀ p ∈ l, identityKey p = some (keyOf p)) →
      (l.map keyOf).Nodup →
      (∀ p ∈ l, keyOf p ∉ d.map Prod.fst) →
      l.foldl dedupStep d = d ++ l.map (fun p => (keyOf p, p))
  | [], d, _, _, _ => by simp
  | p :: l, d, hk, hnd, hd => by
      have hkp : identityKey p = some (keyOf p) := hk p (List.mem_cons_self p l)
      have hdp : keyOf p ∉ d.map Prod.fst := hd p (List.mem_cons_self p l)
      have hstep : dedupStep d p = d ++ [(keyOf p, p)] := by
        unfold dedupStep
        rw [hkp]
        dsimp only
        rw [(dictFind_eq_none_iff d (keyOf p)).mpr hdp]
        exact dictSet_of_not_mem d (keyOf p) p hdp
      have hnd' : (l.map keyOf).Nodup := (List.nodup_cons.mp (by simpa using hnd)).2
      have hne : ∀ q ∈ l, keyOf q ≠ keyOf p := by
        intro q hq hcon
        exact (List.nodup_cons.mp (by simpa using hnd)).1 (hcon ▸ List.mem_map_of_mem keyOf hq)
      have hd' : ∀ q ∈ l, keyOf q ∉ (d ++ [(keyOf p, p)]).map Prod.fst := by
        intro q hq
        rw [List.map_append]
        simp only [List.mem_append]
        push_neg
        exact ⟨hd q (List.mem_cons_of_mem p hq), by simpa using hne q hq⟩
      show (p :: l).foldl dedupStep d = _
      rw [List.foldl_cons, hstep,
        foldl_dedupStep_fresh l (d ++ [(keyOf p, p)])
          (fun q hq => hk q (List.mem_cons_of_mem p hq)) hnd' hd']
      simp

/-- C4: `deduplicate_papers` is idempotent.  After one pass each surviving
record's key appears exactly once, so the second pass inserts every record
fresh, in order, and returns the same list. -/
theorem C4_dedup_idempotent (papers : List Paper) :
    deduplicate_papers (deduplicate_papers papers) = deduplicate_papers papers := by
  obtain ⟨h1, h2⟩ := dictWF_foldl papers []
    ⟨fun e he => absurd he (List.not_mem_nil e), List.nodup_nil⟩
  have hkeys : ∀ e ∈ papers.foldl dedupStep [], keyOf e.2 = e.1 := by
    intro e he
    simp [keyOf, h1 e he]
  have hident : ∀ p ∈ (papers.foldl dedupStep []).map Prod.snd,
      identityKey p = some (keyOf p) := by
    intro p hp
    obtain ⟨e, he, hpe⟩ := List.mem_map.mp hp
    rw [← hpe, hkeys e he]
    exact h1 e he
  have hmap : ((papers.foldl dedupStep []).map Prod.snd).map keyOf
      = (papers.foldl dedupStep []).map Prod.fst := by
    rw [List.map_map]
    exact List.map_congr_left hkeys
  have hfresh := foldl_dedupStep_fresh ((papers.foldl dedupStep []).map Prod.snd) []
    hident (by rw [hmap]; exact h2) (fun p _ => by simp)
  show (((papers.foldl dedupStep []).map Prod.snd).foldl dedupStep []).map Prod.snd
      = (papers.foldl dedupStep []).map Prod.snd
  rw [hfresh, List.nil_append, List.map_map]
  exact List.map_id ((papers.foldl dedupStep []).map Prod.snd)

/-- Every entry of the dict after one step is an old entry or holds the
stepped record. -/
theorem mem_dedupStep (d : List (String × Paper)) (p : Paper) (e : String × Paper)
    (he : e ∈ dedupStep d p) : e ∈ d ∨ e.2 = p := by
  unfold dedupStep at he
  cases hk : identityKey p with
  | none =>
      rw [hk] at he
      exact Or.inl he
  | some key =>
      rw [hk] at he
      dsimp only at he
      cases hf : dictFind d key with
      | none =>
          rw [hf] at he
          dsimp only at he
          rcases mem_dictSet d key p e he with h | h
          · exact Or.inl h
          · exact Or.inr (by rw [h])
      | some prev =>
          rw [hf] at he
          dsimp only at he
          split at he
          · rcases mem_dictSet d key p e he with h | h
            · exact Or.inl h
            · exact Or.inr (by rw [h])
          · exact Or.inl he

/-- Every entry of the dict after the fold is an initial entry or holds
one of the folded records. -/
theorem mem_foldl_dedupStep :
    ∀ (l : List Paper) (d : List (String × Paper)) (e : String × Paper),
      e ∈ l.foldl dedupStep d → e ∈ d ∨ e.2 ∈ l
  | [], _, _, h => Or.inl h
  | p :: l, d, e, h => by
      rcases mem_foldl_dedupStep l (dedupStep d p) e h with h1 | h1
      · rcases mem_dedupStep d p e h1 with h2 | h2
        · exact Or.inl h2
        · exact Or.inr (by rw [h2]; exact List.mem_cons_self p l)
      · exact Or.inr (List.mem_cons_of_mem p h1)

/-- Every record returned by dedup is one of the input records. -/
theorem mem_of_mem_deduplicate (papers : List Paper) (p : Paper)
    (hp : p ∈ deduplicate_papers papers) : p ∈ papers := by
  obtain ⟨e, he, hpe⟩ := List.mem_map.mp hp
  rcases mem_foldl_dedupStep papers [] e he with h | h
  · exact absurd h (List.not_mem_nil e)
  · rw [← hpe]
    exact h

/-- Dedup never emits the same record twice. -/
theorem deduplicate_papers_nodup (papers : List Paper) :
    (deduplicate_papers papers).Nodup := by
  obtain ⟨h1, h2⟩ := dictWF_foldl papers []
    ⟨fun e he => absurd he (List.not_mem_nil e), List.nodup_nil⟩
  have hmap : ((papers.foldl dedupStep []).map Prod.snd).map keyOf
      = (papers.foldl dedupStep []).map Prod.fst := by
    rw [List.map_map]
    exact List.map_congr_left (fun e he => by simp [keyOf, h1 e he])
  exact List.Nodup.of_map keyOf (by unfold deduplicate_papers; rw [hmap]; exact h2)

/-- C10: the claim calls the dedup output a subsequence-selection of the
input.  Dedup iterates in input order but *replaces in place* under the
first occurrence of a key, so a later record can end up *before* an
unrelated earlier record: on `[exA, exB, exC]` (where `exA`/`exC` share id
"X" and `exC` has the later date) the output is `[exC, exB]`, which is not
a subsequence of the input. -/
theorem C10_dedup_not_sublist_counterexample :
    deduplicate_papers [exA, exB, exC] = [exC, exB]
    ∧ ¬ (deduplicate_papers [exA, exB, exC]).Sublist [exA, exB, exC] := by decide

/-- C10 (amended): every aggregator output record is an input record with
unmodified fields: both sorts return a permutation of the input, filtering
returns a subsequence of the input, and dedup returns input records with
none invented or duplicated (but not necessarily in input order). -/
theorem C10_identity_preservation_amended (papers : List Paper) (query : String)
    (reverse : Bool) :
    List.Perm (sort_papers_by_date papers reverse) papers
    ∧ List.Perm (sort_papers_by_upvotes papers reverse) papers
    ∧ (filter_papers papers query).Sublist papers
    ∧ (∀ p, p ∈ deduplicate_papers papers → p ∈ papers)
    ∧ (deduplicate_papers papers).Nodup := by
  refine ⟨List.mergeSort_perm papers _, List.mergeSort_perm papers _, ?_,
    mem_of_mem_deduplicate papers, deduplicate_papers_nodup papers⟩
  rw [filter_papers_eq]
  by_cases h : query = ""
  · rw [if_pos h]
  · rw [if_neg h]
    exact List.filter_sublist papers

/-- C10 witness: the membership conjunct of the amended claim applied to
the concrete three-record input of the counterexample. -/
theorem C10_identity_preservation_witness :
    exC ∈ deduplicate_papers [exA, exB, exC] ∧ exC ∈ [exA, exB, exC] :=
  ⟨by decide,
   (C10_identity_preservation_amended [exA, exB, exC] "a" true).2.2.2.1 exC (by decide)⟩

end TrendingPapers
